import Mathlib

/-!
Verification of the FastAPI/SQLAlchemy users-and-posts demo service and its
load-generation script, as a shallow embedding in Lean 4.

The relational store is modelled as insertion-ordered lists of users and
posts.  The repository operations (`crud.py`), the route handlers
(`main.py`) and the load orchestrator (`test_load.py`) are translated into
executable Lean functions, and the claims of the specification are proved or
refuted against them.
-/

/-- A persisted `users` row (models.py, class `User`): surrogate integer id,
unique email, full name, active flag.  The server-assigned timestamp is
irrelevant to the claims and omitted. -/
structure User where
  id : Nat
  email : String
  full_name : String
  is_active : Bool
deriving Repr, DecidableEq

/-- A persisted `posts` row (models.py, class `Post`): surrogate id, title,
content, published flag, and the required owner foreign key. -/
structure Post where
  id : Nat
  title : String
  content : String
  is_published : Bool
  owner_id : Nat
deriving Repr, DecidableEq

/-- Payload of a create-user request (schemas.py, `UserCreate`). -/
structure UserCreate where
  email : String
  full_name : String
  is_active : Bool
deriving Repr, DecidableEq

/-- Payload of a create-post request (schemas.py, `PostCreate`). -/
structure PostCreate where
  title : String
  content : String
  is_published : Bool
deriving Repr, DecidableEq

/-- The relational store: the two tables in insertion order, plus the
next value of each surrogate-key sequence. -/
structure Store where
  users : List User
  posts : List Post
  next_user_id : Nat
  next_post_id : Nat
deriving Repr, DecidableEq

/-- Outcome of a route handler: a successful payload or an HTTP error
(`HTTPException` in main.py) with its status code and detail string. -/
inductive ApiResult (α : Type) where
  | ok (value : α)
  | httpError (status : Nat) (detail : String)
deriving Repr, DecidableEq

namespace crud

/-- crud.get_user: first user whose id matches, if any. -/
def get_user (db : Store) (user_id : Nat) : Option User :=
  db.users.find? (fun u => u.id == user_id)

/-- crud.get_user_by_email: first user whose email matches, if any. -/
def get_user_by_email (db : Store) (email : String) : Option User :=
  db.users.find? (fun u => u.email == email)

/-- crud.get_users: pagination by `offset(skip).limit(limit)` over the
insertion-ordered table. -/
def get_users (db : Store) (skip limit : Nat) : List User :=
  (db.users.drop skip).take limit

/-- crud.create_user: insert a new row with the next surrogate id and
commit; returns the populated entity. -/
def create_user (db : Store) (user : UserCreate) : Store × User :=
  let row : User :=
    { id := db.next_user_id, email := user.email,
      full_name := user.full_name, is_active := user.is_active }
  ({ db with users := db.users ++ [row], next_user_id := db.next_user_id + 1 }, row)

/-- crud.delete_user: if a user with the id exists, delete it — the
`cascade="all, delete-orphan"` relationship declared on `User.posts`
(models.py) also deletes every post owned by it, in the same commit —
and return `true`; otherwise return `false`. -/
def delete_user (db : Store) (user_id : Nat) : Store × Bool :=
  match get_user db user_id with
  | some _ =>
    ({ db with
        users := db.users.filter (fun u => u.id != user_id),
        posts := db.posts.filter (fun p => p.owner_id != user_id) }, true)
  | none => (db, false)

/-- crud.get_posts: same pagination scheme as get_users. -/
def get_posts (db : Store) (skip limit : Nat) : List Post :=
  (db.posts.drop skip).take limit

/-- crud.create_post: insert a post bound to `user_id` and commit. -/
def create_post (db : Store) (post : PostCreate) (user_id : Nat) : Store × Post :=
  let row : Post :=
    { id := db.next_post_id, title := post.title, content := post.content,
      is_published := post.is_published, owner_id := user_id }
  ({ db with posts := db.posts ++ [row], next_post_id := db.next_post_id + 1 }, row)

end crud

namespace api

/-- main.py `create_user` route: reject with 400 when the email is already
registered, otherwise insert via the repository. -/
def create_user (db : Store) (user : UserCreate) : Store × ApiResult User :=
  match crud.get_user_by_email db user.email with
  | some _ => (db, .httpError 400 "Email already registered")
  | none =>
    let (db2, row) := crud.create_user db user
    (db2, .ok row)

/-- main.py `delete_user` route: 404 when the id is unknown, otherwise
delete via the repository. -/
def delete_user (db : Store) (user_id : Nat) : Store × ApiResult String :=
  match crud.get_user db user_id with
  | none => (db, .httpError 404 "User not found")
  | some _ =>
    let (db2, _) := crud.delete_user db user_id
    (db2, .ok "User deleted successfully")

/-- main.py `create_post_for_user` route: 404 when the owner id is
unknown, otherwise insert the post via the repository. -/
def create_post_for_user (db : Store) (user_id : Nat) (post : PostCreate) :
    Store × ApiResult Post :=
  match crud.get_user db user_id with
  | none => (db, .httpError 404 "User not found")
  | some _ =>
    let (db2, row) := crud.create_post db post user_id
    (db2, .ok row)

/-- The naive double recursion defined inside `compute_fibonacci`
(main.py): `if num <= 1: return num` and otherwise the sum of the two
recursive calls.  It is only ever applied to non-negative arguments. -/
def fibonacci : Nat → Nat
  | 0 => 0
  | 1 => 1
  | n + 2 => fibonacci (n + 1) + fibonacci n

/-- main.py `compute_fibonacci` route: reject n < 0 or n > 40 with a 400
before computing, otherwise return the naive recursive Fibonacci value. -/
def compute_fibonacci (n : Int) : ApiResult Nat :=
  if n < 0 then .httpError 400 "n must be non-negative"
  else if n > 40 then .httpError 400 "n must be <= 40 to prevent timeout"
  else .ok (fibonacci n.toNat)

/-- main.py `compute_sum` route: reject n < 0 or n > 10000000 with a 400,
otherwise return `sum(range(n + 1))`. -/
def compute_sum (n : Int) : ApiResult Nat :=
  if n < 0 then .httpError 400 "n must be non-negative"
  else if n > 10000000 then .httpError 400 "n must be <= 10000000"
  else .ok (List.range (n.toNat + 1)).sum

end api

/-!
Session lifecycle (main.py `get_db`): a session is opened, handed to the
request body, and closed in a `finally` clause that runs on every exit
path — normal return, early `HTTPException`, or any other failure.
-/

/-- Observable events on the session handle. -/
inductive DbEvent where
  | acquire
  | release
deriving Repr, DecidableEq

/-- main.py `get_db`: open the session, run the body (whose own outcome —
normal value or raised error — and whose own event trace are passed in as
data), and close the session in `finally`, so the release event is
appended after the events of the body on every exit path and its
outcome is propagated unchanged. -/
def get_db {α : Type} (result : Except String α) (bodyEvents : List DbEvent) :
    Except String α × List DbEvent :=
  (result, DbEvent.acquire :: bodyEvents ++ [DbEvent.release])

/-!
Load orchestrator (test_load.py).  Each HTTP call the script can issue is
an element of `Call`; the behaviour of the service is abstracted as an oracle
`outcome : Call → Bool` (`true` = the call succeeds).  `asyncio.gather`
with `return_exceptions=True` is modelled by the phase trace: all issue
events, then a settle event for every call, then a single join — the join
happens only once every call has settled, and the failure of one call does not
affect any sibling.
-/

/-- The HTTP calls issued by test_load.py. -/
inductive Call where
  | health
  | createUser (i : Nat)
  | createPost (owner idx : Nat)
  | listUsersCall (skip limit : Nat)
  | fib (n : Nat)
  | sumCall (n : Nat)
deriving Repr, DecidableEq

/-- Events of the execution trace of the orchestrator. -/
inductive Event where
  | issue (c : Call)
  | settle (c : Call) (success : Bool)
  | join
  | sleep
deriving Repr, DecidableEq

namespace load

/-- One fan-out/join phase (`tasks = [...]` then
`asyncio.gather(*tasks, return_exceptions=True)`): every call is issued,
then every issued call settles with its own individual outcome, then the
single join completes the phase.  No retry and no cancellation exist. -/
def runPhase (outcome : Call → Bool) (calls : List Call) : List Event :=
  calls.map Event.issue ++ calls.map (fun c => Event.settle c (outcome c)) ++ [Event.join]

/-- The settled results a phase hands back (the list `gather` returns):
one outcome per issued call. -/
def phaseResults (outcome : Call → Bool) (calls : List Call) : List Bool :=
  calls.map outcome

/-- Phase 2 of main(): ten concurrent user creations. -/
def bulkCreateCalls : List Call :=
  (List.range 10).map Call.createUser

/-- Phase 3 of main(): twenty concurrent post creations, owners assigned
cyclically as `i % 5 + 1`. -/
def dependentCreateCalls : List Call :=
  (List.range 20).map (fun i => Call.createPost (i % 5 + 1) i)

/-- Phase 4 of main() (`run_cpu_intensive_operations` with
`num_operations = 20`): a Fibonacci call per index and a bounded-sum call
on every even index; the randomized parameters are abstracted as the
functions `fibArg` and `sumArg` of the index. -/
def cpuCalls (fibArg sumArg : Nat → Nat) : List Call :=
  ((List.range 20).map (fun i =>
    Call.fib (fibArg i) :: (if i % 2 == 0 then [Call.sumCall (sumArg i)] else []))).flatten

/-- The calls of one iteration of `run_mixed_load`: always a health
check, plus a list call on every 3rd iteration and a Fibonacci call on
every 5th iteration (counting from 0). -/
def mixedIterCalls (mixedFibArg : Nat → Nat) (k : Nat) : List Call :=
  [Call.health]
    ++ (if k % 3 == 0 then [Call.listUsersCall 0 20] else [])
    ++ (if k % 5 == 0 then [Call.fib (mixedFibArg k)] else [])

/-- The event trace of one `run_mixed_load` iteration: fan out the
calls of the iteration, join them, then sleep the fixed short interval.  The
sleep comes strictly after the join. -/
def mixedIterEvents (outcome : Call → Bool) (mixedFibArg : Nat → Nat) (k : Nat) :
    List Event :=
  runPhase outcome (mixedIterCalls mixedFibArg k) ++ [Event.sleep]

/-- test_load.py `run_mixed_load`: starting at iteration `count`, loop
while the elapsed wall-clock time observed at the top of the iteration
(abstracted as `elapsed count`) is below `duration`; each pass runs one
whole iteration (fan-out, join, counter increment, sleep).  The recursion
is fuelled; the theorems only use fuel values large enough for the loop
to exit by its own condition, so the fuel never truncates a run.  Returns
the per-iteration call lists and the final value of `operation_count`,
which the function reports at the end. -/
def run_mixed_load (mixedFibArg : Nat → Nat) (elapsed : Nat → Nat) (duration : Nat) :
    Nat → Nat → List (List Call) × Nat
  | 0, count => ([], count)
  | fuel + 1, count =>
    if elapsed count < duration then
      let rest := run_mixed_load mixedFibArg elapsed duration fuel (count + 1)
      (mixedIterCalls mixedFibArg count :: rest.1, rest.2)
    else ([], count)

/-- The fan-out phases of main() that run after a successful probe, in
script order: bulk create, dependent create, burst compute, and each
iteration of the continuous mixed-load phase. -/
def scriptPhases (fibArg sumArg mixedFibArg : Nat → Nat) (elapsed : Nat → Nat)
    (duration fuel : Nat) : List (List Call) :=
  [bulkCreateCalls, dependentCreateCalls, cpuCalls fibArg sumArg]
    ++ (run_mixed_load mixedFibArg elapsed duration fuel 0).1

/-- test_load.py `main`: probe the health endpoint first; if the probe
fails, return immediately — no create phase runs.  Otherwise run every
phase; an individual call failing inside a phase never stops the script
(`gather` with `return_exceptions=True` plus try/except around each
phase).  Returns the probe result and the list of fan-out phases whose
calls were issued. -/
def mainScript (outcome : Call → Bool) (fibArg sumArg mixedFibArg : Nat → Nat)
    (elapsed : Nat → Nat) (duration fuel : Nat) : Bool × List (List Call) :=
  if outcome Call.health then
    (true, scriptPhases fibArg sumArg mixedFibArg elapsed duration fuel)
  else
    (false, [])

end load

/-- Modelled from the spec: the syntactic email validation performed by the
declared request-schema type (`UserCreate.email : EmailStr` in schemas.py)
is carried out by the schema-validation layer of the framework, whose code is
not part of this repository.  Following the spec — "an explicit validation
step producing a typed, fully-populated value or a rejection before any
field reaches the repository" — the layer is modelled as a guard,
parametric in the well-formedness predicate on email strings, that runs
before the `create_user` route handler: an ill-formed email is rejected
with a validation error and the handler (and hence the repository) is
never invoked. -/
def create_user_request (valid_email : String → Bool) (db : Store) (raw : UserCreate) :
    Store × ApiResult User :=
  if valid_email raw.email then api.create_user db raw
  else (db, .httpError 422 "value is not a valid email address")

/-!
Helper lemmas shared by the claim theorems.
-/

/-- The naive recursion of `compute_fibonacci` computes the standard
Fibonacci sequence. -/
theorem fibonacci_eq_fib : ∀ n, api.fibonacci n = Nat.fib n
  | 0 => rfl
  | 1 => rfl
  | n + 2 => by
    rw [api.fibonacci, Nat.fib_add_two, fibonacci_eq_fib (n + 1), fibonacci_eq_fib n,
      Nat.add_comm]

/-- Twice the value of `sum(range(m + 1))`. -/
theorem two_mul_sum_range (m : Nat) : 2 * (List.range (m + 1)).sum = m * (m + 1) := by
  induction m with
  | zero => rfl
  | succ k ih =>
    rw [List.range_succ, List.sum_append]
    calc 2 * ((List.range (k + 1)).sum + [k + 1].sum)
        = 2 * (List.range (k + 1)).sum + 2 * (k + 1) := by
          simp [List.sum_cons]; ring
      _ = k * (k + 1) + 2 * (k + 1) := by rw [ih]
      _ = (k + 1) * (k + 1 + 1) := by ring

/-- The Gauss closed form for `sum(range(m + 1))`. -/
theorem sum_range_gauss (m : Nat) : (List.range (m + 1)).sum = m * (m + 1) / 2 := by
  have h := two_mul_sum_range m
  omega

/-- C3: the Fibonacci endpoint returns a 400 bad-request response exactly
when n < 0 or n > 40; for every n in range it returns the n-th Fibonacci
number of the naive double recursion, which satisfies fib(0) = 0,
fib(1) = 1 and fib(k+2) = fib(k+1) + fib(k). -/
theorem compute_fibonacci_spec (n : Int) :
    ((∃ detail, api.compute_fibonacci n = .httpError 400 detail) ↔ (n < 0 ∨ n > 40))
    ∧ (0 ≤ n → n ≤ 40 → api.compute_fibonacci n = .ok (api.fibonacci n.toNat))
    ∧ api.fibonacci 0 = 0 ∧ api.fibonacci 1 = 1
    ∧ ∀ k, api.fibonacci (k + 2) = api.fibonacci (k + 1) + api.fibonacci k := by
  refine ⟨?_, ?_, rfl, rfl, fun k => rfl⟩
  · unfold api.compute_fibonacci
    by_cases h1 : n < 0
    · simp [h1]
    · by_cases h2 : n > 40
      · simp [h1, h2]
      · simp [h1, h2]
  · intro h1 h2
    unfold api.compute_fibonacci
    rw [if_neg (by omega), if_neg (by omega)]

/-- C3 witness: fibonacci(40) succeeds with the correct value, while
fibonacci(41) and fibonacci(-1) are rejected with 400. -/
theorem compute_fibonacci_spec_witness :
    api.compute_fibonacci 40 = .ok 102334155
    ∧ (∃ detail, api.compute_fibonacci 41 = .httpError 400 detail)
    ∧ (∃ detail, api.compute_fibonacci (-1) = .httpError 400 detail) := by
  refine ⟨?_, ?_, ?_⟩
  · have h := (compute_fibonacci_spec 40).2.1 (by norm_num) (by norm_num)
    rw [h, fibonacci_eq_fib]
    norm_num
    decide
  · exact (compute_fibonacci_spec 41).1.mpr (Or.inr (by norm_num))
  · exact (compute_fibonacci_spec (-1)).1.mpr (Or.inl (by norm_num))

/-- C4: the bounded-sum endpoint returns a 400 bad-request response
exactly when n < 0 or n > 10000000; otherwise it returns the sum of the
integers 0..n, which equals n·(n+1)/2. -/
theorem compute_sum_spec (n : Int) :
    ((∃ detail, api.compute_sum n = .httpError 400 detail) ↔ (n < 0 ∨ n > 10000000))
    ∧ (0 ≤ n → n ≤ 10000000 → api.compute_sum n = .ok (n.toNat * (n.toNat + 1) / 2)) := by
  constructor
  · unfold api.compute_sum
    by_cases h1 : n < 0
    · simp [h1]
    · by_cases h2 : n > 10000000
      · simp [h1, h2]
      · simp [h1, h2]
  · intro h1 h2
    unfold api.compute_sum
    rw [if_neg (by omega), if_neg (by omega), sum_range_gauss]

/-- C4 witness: sum(10000000) succeeds and equals 10000000·10000001/2,
while sum(10000001) is rejected with 400. -/
theorem compute_sum_spec_witness :
    api.compute_sum 10000000 = .ok 50000005000000
    ∧ (∃ detail, api.compute_sum 10000001 = .httpError 400 detail) := by
  constructor
  · have h := (compute_sum_spec 10000000).2 (by norm_num) (by norm_num)
    rw [h]
    decide
  · exact (compute_sum_spec 10000001).1.mpr (Or.inr (by norm_num))

/-- A user id is found exactly when a user with that id is stored. -/
theorem get_user_isSome_iff (db : Store) (X : Nat) :
    (crud.get_user db X).isSome ↔ ∃ u ∈ db.users, u.id = X := by
  unfold crud.get_user
  simp

/-- C1: `delete_user` returns true exactly when a user with id X is
present; when it is, the resulting store holds no user with id X and no
post owned by X (so every page of a subsequent post listing is free of
that owner) while all other users and posts survive, all in the one
operation; when it is absent the store is untouched and false is
returned. -/
theorem delete_user_cascade_spec (db : Store) (X : Nat) :
    ((crud.delete_user db X).2 = true ↔ ∃ u ∈ db.users, u.id = X)
    ∧ ((∃ u ∈ db.users, u.id = X) →
        (∀ u ∈ (crud.delete_user db X).1.users, u.id ≠ X)
        ∧ (∀ p ∈ (crud.delete_user db X).1.posts, p.owner_id ≠ X)
        ∧ (∀ u ∈ db.users, u.id ≠ X → u ∈ (crud.delete_user db X).1.users)
        ∧ (∀ p ∈ db.posts, p.owner_id ≠ X → p ∈ (crud.delete_user db X).1.posts)
        ∧ ∀ skip limit p, p ∈ crud.get_posts (crud.delete_user db X).1 skip limit →
            p.owner_id ≠ X)
    ∧ ((∀ u ∈ db.users, u.id ≠ X) → crud.delete_user db X = (db, false)) := by
  have hiff := get_user_isSome_iff db X
  unfold crud.delete_user
  cases h : crud.get_user db X with
  | none =>
    rw [h] at hiff
    simp only [Option.isSome_none, Bool.false_eq_true, false_iff] at hiff
    refine ⟨by simp [hiff], fun hex => absurd hex hiff, fun _ => rfl⟩
  | some u =>
    rw [h] at hiff
    simp only [Option.isSome_some, true_iff] at hiff
    refine ⟨by simp [hiff], fun _ => ⟨?_, ?_, ?_, ?_, ?_⟩, fun habs => ?_⟩
    · intro v hv
      simp only [List.mem_filter, bne_iff_ne, ne_eq] at hv
      exact hv.2
    · intro p hp
      simp only [List.mem_filter, bne_iff_ne, ne_eq] at hp
      exact hp.2
    · intro v hv hne
      simp only [List.mem_filter, bne_iff_ne, ne_eq]
      exact ⟨hv, hne⟩
    · intro p hp hne
      simp only [List.mem_filter, bne_iff_ne, ne_eq]
      exact ⟨hp, hne⟩
    · intro skip limit p hp
      unfold crud.get_posts at hp
      have hp2 := List.mem_of_mem_drop (List.mem_of_mem_take hp)
      simp only [List.mem_filter, bne_iff_ne, ne_eq] at hp2
      exact hp2.2
    · exfalso
      obtain ⟨v, hv, hid⟩ := hiff
      exact habs v hv hid

/-- C1 witness: in a store holding user 1 and a post owned by user 1,
deleting user 1 reports true and leaves no post owned by 1. -/
theorem delete_user_cascade_spec_witness :
    (crud.delete_user ⟨[⟨1, "a@x.com", "A", true⟩], [⟨1, "T", "C", true, 1⟩], 2, 2⟩ 1).2 = true
    ∧ ∀ p ∈ (crud.delete_user ⟨[⟨1, "a@x.com", "A", true⟩],
        [⟨1, "T", "C", true, 1⟩], 2, 2⟩ 1).1.posts, p.owner_id ≠ 1 := by
  have h := delete_user_cascade_spec
    ⟨[⟨1, "a@x.com", "A", true⟩], [⟨1, "T", "C", true, 1⟩], 2, 2⟩ 1
  have hex : ∃ u ∈ [(⟨1, "a@x.com", "A", true⟩ : User)], u.id = 1 :=
    ⟨⟨1, "a@x.com", "A", true⟩, by simp, rfl⟩
  exact ⟨h.1.mpr hex, (h.2.1 hex).2.1⟩

/-- C5: when some stored user already has the requested email, the
create-user route returns the 400 conflict and the store is returned
unchanged — the duplicate check runs before any insert. -/
theorem create_user_conflict_spec (db : Store) (user : UserCreate)
    (hdup : ∃ v ∈ db.users, v.email = user.email) :
    api.create_user db user = (db, .httpError 400 "Email already registered") := by
  unfold api.create_user
  cases h : crud.get_user_by_email db user.email with
  | some v => rfl
  | none =>
    exfalso
    unfold crud.get_user_by_email at h
    rw [List.find?_eq_none] at h
    obtain ⟨v, hm, he⟩ := hdup
    exact h v hm (by simp [he])

/-- C5 witness: creating a second user with an email already stored is
rejected with 400 and the store is unchanged. -/
theorem create_user_conflict_spec_witness :
    api.create_user ⟨[⟨1, "a@x.com", "A", true⟩], [], 2, 1⟩ ⟨"a@x.com", "B", true⟩
      = (⟨[⟨1, "a@x.com", "A", true⟩], [], 2, 1⟩, .httpError 400 "Email already registered") :=
  create_user_conflict_spec ⟨[⟨1, "a@x.com", "A", true⟩], [], 2, 1⟩ ⟨"a@x.com", "B", true⟩
    ⟨⟨1, "a@x.com", "A", true⟩, by simp, rfl⟩

/-- C6: when no stored user has the requested owner id, the create-post
route returns the 404 not-found and the store is returned unchanged — no
post row is inserted. -/
theorem create_post_missing_owner_spec (db : Store) (user_id : Nat) (post : PostCreate)
    (habs : ∀ u ∈ db.users, u.id ≠ user_id) :
    api.create_post_for_user db user_id post = (db, .httpError 404 "User not found") := by
  unfold api.create_post_for_user
  cases h : crud.get_user db user_id with
  | none => rfl
  | some u =>
    exfalso
    unfold crud.get_user at h
    have hm := List.mem_of_find?_eq_some h
    have hp := List.find?_some h
    simp only [beq_iff_eq] at hp
    exact habs u hm hp

/-- C6 witness: creating a post for absent owner id 7 is rejected with
404 and inserts nothing. -/
theorem create_post_missing_owner_spec_witness :
    api.create_post_for_user ⟨[⟨1, "a@x.com", "A", true⟩], [], 2, 1⟩ 7 ⟨"T", "C", true⟩
      = (⟨[⟨1, "a@x.com", "A", true⟩], [], 2, 1⟩, .httpError 404 "User not found") :=
  create_post_missing_owner_spec ⟨[⟨1, "a@x.com", "A", true⟩], [], 2, 1⟩ 7 ⟨"T", "C", true⟩
    (by simp)

/-- A store holding three users, used to examine two-page pagination. -/
def pageStore : Store :=
  ⟨[⟨1, "a@x.com", "A", true⟩, ⟨2, "b@x.com", "B", true⟩, ⟨3, "c@x.com", "Cc", true⟩],
    [], 4, 1⟩

/-- A store holding two users, used to examine two-page pagination. -/
def pageStoreTwo : Store :=
  ⟨[⟨1, "a@x.com", "A", true⟩, ⟨2, "b@x.com", "B", true⟩], [], 3, 1⟩

/-- C2 counterexample: with three stored users and limit 1, the user with
id 3 is in the store but in neither of the two consecutive pages, so
listUsers(0, limit) followed by listUsers(limit, limit) does not
partition the full user set. -/
theorem get_users_pages_not_partition :
    ∃ u ∈ pageStore.users,
      u ∉ crud.get_users pageStore 0 1 ++ crud.get_users pageStore 1 1 := by
  decide

/-- C2 (amended): listUsers(skip, limit) is the insertion-ordered
contiguous window [skip, skip+limit); the two consecutive pages
listUsers(0, limit) and listUsers(limit, limit) have no gap — their
concatenation is exactly the window [0, 2·limit) — and no overlap (for a
duplicate-free table), and they partition the full user set exactly when
it holds at most 2·limit users; no upper bound is enforced on limit, so a
limit at least the table size returns the whole table. -/
theorem get_users_window_spec (db : Store) (skip limit : Nat) :
    (∀ i, i < limit → (crud.get_users db skip limit)[i]? = db.users[skip + i]?)
    ∧ crud.get_users db 0 limit ++ crud.get_users db limit limit = db.users.take (2 * limit)
    ∧ (db.users.Nodup → ∀ u ∈ crud.get_users db 0 limit, u ∉ crud.get_users db limit limit)
    ∧ (db.users.length ≤ 2 * limit →
        crud.get_users db 0 limit ++ crud.get_users db limit limit = db.users)
    ∧ (db.users.length ≤ limit → crud.get_users db 0 limit = db.users) := by
  have hcat : crud.get_users db 0 limit ++ crud.get_users db limit limit
      = db.users.take (2 * limit) := by
    unfold crud.get_users
    rw [List.drop_zero, Nat.two_mul, List.take_add]
  refine ⟨?_, hcat, ?_, ?_, ?_⟩
  · intro i hi
    unfold crud.get_users
    rw [List.getElem?_take_of_lt hi, List.getElem?_drop]
  · intro hnd u h0 h1
    unfold crud.get_users at h0 h1
    rw [List.drop_zero] at h0
    exact (List.disjoint_take_drop hnd (Nat.le_refl limit))
      h0 (List.mem_of_mem_take h1)
  · intro hlen
    rw [hcat, List.take_of_length_le hlen]
  · intro hlen
    unfold crud.get_users
    rw [List.drop_zero, List.take_of_length_le hlen]

/-- C2 witness: with two stored users and limit 1, the two consecutive
pages are disjoint and concatenate to the full user list. -/
theorem get_users_window_spec_witness :
    crud.get_users pageStoreTwo 0 1 ++ crud.get_users pageStoreTwo 1 1 = pageStoreTwo.users
    ∧ ∀ u ∈ crud.get_users pageStoreTwo 0 1, u ∉ crud.get_users pageStoreTwo 1 1 := by
  have h := get_users_window_spec pageStoreTwo 0 1
  exact ⟨h.2.2.2.1 (by decide), h.2.2.1 (by decide)⟩

/-- C9: for every body outcome — normal value or raised error — and every
body whose own events do not release the handle, `get_db` propagates the
outcome unchanged, the session is released exactly once, the release is
the final event of the unit of work, and the acquisition precedes
everything: the scoped-acquisition pattern releases on every exit
path. -/
theorem get_db_scoped_release {α : Type} (result : Except String α)
    (bodyEvents : List DbEvent) (hbody : bodyEvents.count DbEvent.release = 0) :
    (get_db result bodyEvents).1 = result
    ∧ (get_db result bodyEvents).2.count DbEvent.release = 1
    ∧ (get_db result bodyEvents).2.getLast? = some DbEvent.release
    ∧ (get_db result bodyEvents).2.head? = some DbEvent.acquire := by
  unfold get_db
  refine ⟨rfl, ?_, ?_, rfl⟩
  · simp [List.count_cons, List.count_append, hbody]
  · exact List.getLast?_concat (DbEvent.acquire :: bodyEvents)

/-- C9 witness: on the failure exit path (the body raised) with no events
of its own, the handle is still released exactly once, as the final
event. -/
theorem get_db_scoped_release_witness :
    (get_db (Except.error "boom" : Except String Unit) []).2.count DbEvent.release = 1
    ∧ (get_db (Except.error "boom" : Except String Unit) []).2.getLast?
        = some DbEvent.release := by
  have h := get_db_scoped_release (Except.error "boom" : Except String Unit) [] (by decide)
  exact ⟨h.2.1, h.2.2.1⟩

/-- C10: a create-user request whose email the schema layer deems
ill-formed is rejected with a validation error before the route handler
runs, leaving the store unchanged, while every well-formed request is
passed through to the handler (and only then to the duplicate check and
insert). -/
theorem invalid_email_rejected (valid_email : String → Bool) (db : Store)
    (raw : UserCreate) (hbad : valid_email raw.email = false) :
    create_user_request valid_email db raw
      = (db, .httpError 422 "value is not a valid email address")
    ∧ ∀ raw2, valid_email raw2.email = true →
        create_user_request valid_email db raw2 = api.create_user db raw2 := by
  constructor
  · unfold create_user_request
    simp [hbad]
  · intro raw2 hgood
    unfold create_user_request
    simp [hgood]

/-- C10 witness: with a validator rejecting every string, a create-user
request is answered by the validation layer and the store is untouched. -/
theorem invalid_email_rejected_witness :
    create_user_request (fun _ => false) ⟨[], [], 1, 1⟩ ⟨"not-an-email", "A", true⟩
      = (⟨[], [], 1, 1⟩, .httpError 422 "value is not a valid email address") :=
  (invalid_email_rejected (fun _ => false) ⟨[], [], 1, 1⟩ ⟨"not-an-email", "A", true⟩ rfl).1

/-- The issue-event constructor is injective. -/
theorem issue_injective : Function.Injective Event.issue := by
  intro a b h
  cases h
  rfl

/-- C7: in every phase, the join is a single event occurring after every
issue event; every planned call is issued exactly once (no retry); every
issued call settles before the join with its own individual outcome, so a
failing call affects neither its siblings nor the phase; the settled
results are one per issued call; and the script runs the create phases
exactly when the initial health probe succeeds — a failed probe aborts
the whole script before any create phase. -/
theorem orchestrator_concurrency_spec (outcome : Call → Bool)
    (fibArg sumArg mixedFibArg : Nat → Nat) (elapsed : Nat → Nat) (duration fuel : Nat) :
    (∀ calls : List Call,
      (load.runPhase outcome calls).count Event.join = 1
      ∧ (load.runPhase outcome calls).getLast? = some Event.join
      ∧ (∀ i c, (load.runPhase outcome calls)[i]? = some (Event.issue c) →
          i < (load.runPhase outcome calls).length - 1)
      ∧ (∀ c, (load.runPhase outcome calls).count (Event.issue c) = calls.count c)
      ∧ (∀ c, c ∈ calls →
          Event.settle c (outcome c) ∈ (load.runPhase outcome calls).dropLast)
      ∧ (load.phaseResults outcome calls).length = calls.length
      ∧ ∀ i, i < calls.length →
          (load.phaseResults outcome calls)[i]? = (calls[i]?).map outcome)
    ∧ (outcome Call.health = false →
        load.mainScript outcome fibArg sumArg mixedFibArg elapsed duration fuel
          = (false, []))
    ∧ (outcome Call.health = true →
        (load.mainScript outcome fibArg sumArg mixedFibArg elapsed duration fuel).2.take 3
          = [load.bulkCreateCalls, load.dependentCreateCalls,
              load.cpuCalls fibArg sumArg]) := by
  refine ⟨fun calls => ⟨?_, ?_, ?_, ?_, ?_, by simp [load.phaseResults], ?_⟩, ?_, ?_⟩
  · have hA : (calls.map Event.issue).count Event.join = 0 := by
      rw [List.count_eq_zero]
      simp
    have hB : (calls.map fun c => Event.settle c (outcome c)).count Event.join = 0 := by
      rw [List.count_eq_zero]
      simp
    simp [load.runPhase, List.count_append, hA, hB]
  · show ((calls.map Event.issue ++ calls.map fun c => Event.settle c (outcome c))
        ++ [Event.join]).getLast? = some Event.join
    exact List.getLast?_concat _
  · intro i c h
    have hlt : i < (load.runPhase outcome calls).length := by
      by_contra hge
      rw [List.getElem?_eq_none (by omega)] at h
      exact Option.noConfusion h
    rcases Nat.lt_or_ge i ((load.runPhase outcome calls).length - 1) with h1 | h1
    · exact h1
    · exfalso
      have hieq : i = (load.runPhase outcome calls).length - 1 := by omega
      have hl : (load.runPhase outcome calls).getLast? = some Event.join :=
        List.getLast?_concat _
      rw [List.getLast?_eq_getElem?, ← hieq, h] at hl
      simp at hl
  · intro c
    have hinj := List.count_map_of_injective calls Event.issue issue_injective c
    simp only [load.runPhase, List.count_append, hinj]
    have hB : (calls.map fun d => Event.settle d (outcome d)).count (Event.issue c) = 0 := by
      rw [List.count_eq_zero]
      simp
    have hJ : ([Event.join] : List Event).count (Event.issue c) = 0 := by
      rw [List.count_eq_zero]
      simp
    omega
  · intro c hc
    have : (load.runPhase outcome calls).dropLast
        = calls.map Event.issue ++ calls.map fun d => Event.settle d (outcome d) := by
      show ((calls.map Event.issue ++ calls.map fun d => Event.settle d (outcome d))
          ++ [Event.join]).dropLast = _
      rw [List.dropLast_concat]
    rw [this]
    exact List.mem_append_right _ (List.mem_map_of_mem _ hc)
  · intro i hi
    simp [load.phaseResults]
  · intro hfail
    unfold load.mainScript
    rw [hfail]
    rfl
  · intro hok
    unfold load.mainScript
    rw [hok]
    rfl

/-- C7 witness: with a service where every call fails, the probe failure
aborts the script with no phase issued, and a one-call phase still has
its single join. -/
theorem orchestrator_concurrency_spec_witness :
    load.mainScript (fun _ => false) id id id id 0 0 = (false, [])
    ∧ (load.runPhase (fun _ => false) [Call.health]).count Event.join = 1 := by
  have h := orchestrator_concurrency_spec (fun _ => false) id id id id 0 0
  exact ⟨h.2.1 rfl, (h.1 [Call.health]).1⟩

/-- The mixed-load loop run from iteration `count` with the top-of-loop
condition first failing at iteration N performs exactly iterations
count..N-1 and reports N, provided the fuel does not run out first. -/
theorem run_mixed_load_eq (mixedFibArg elapsed : Nat → Nat) (duration N : Nat)
    (h1 : ∀ k < N, elapsed k < duration) (h2 : duration ≤ elapsed N) :
    ∀ fuel count, count ≤ N → N + 1 ≤ fuel + count →
      load.run_mixed_load mixedFibArg elapsed duration fuel count
        = ((List.range' count (N - count)).map (load.mixedIterCalls mixedFibArg), N) := by
  intro fuel
  induction fuel with
  | zero =>
    intro count hc hf
    omega
  | succ f ih =>
    intro count hc hf
    by_cases hlt : elapsed count < duration
    · have hcN : count < N := by
        rcases Nat.lt_or_ge count N with h | h
        · exact h
        · exfalso
          have : count = N := by omega
          subst this
          omega
      rw [show load.run_mixed_load mixedFibArg elapsed duration (f + 1) count
          = if elapsed count < duration then
              (load.mixedIterCalls mixedFibArg count ::
                (load.run_mixed_load mixedFibArg elapsed duration f (count + 1)).1,
               (load.run_mixed_load mixedFibArg elapsed duration f (count + 1)).2)
            else ([], count) from rfl]
      rw [if_pos hlt, ih (count + 1) (by omega) (by omega)]
      rw [show N - count = (N - (count + 1)) + 1 by omega, List.range'_succ]
      simp
    · have hcN : count = N := by
        rcases Nat.lt_or_ge count N with h | h
        · exact absurd (h1 count h) hlt
        · omega
      rw [show load.run_mixed_load mixedFibArg elapsed duration (f + 1) count
          = if elapsed count < duration then
              (load.mixedIterCalls mixedFibArg count ::
                (load.run_mixed_load mixedFibArg elapsed duration f (count + 1)).1,
               (load.run_mixed_load mixedFibArg elapsed duration f (count + 1)).2)
            else ([], count) from rfl]
      rw [if_neg hlt, hcN]
      simp [Nat.sub_self]

/-- C8: when the elapsed wall-clock time observed at the top of iteration
k is below the duration for all k < N and first reaches the duration at
iteration N (within the available fuel), the mixed-load loop performs
exactly the iterations 0..N-1 in order — each, including the final one,
run to completion — and reports the counter N; every iteration issues one
health check, a list call exactly on every 3rd iteration and a Fibonacci
call exactly on every 5th; and within an iteration the join of the
fanned-out calls precedes the fixed sleep. -/
theorem run_mixed_load_spec (mixedFibArg : Nat → Nat) (outcome : Call → Bool)
    (elapsed : Nat → Nat) (duration N fuel : Nat)
    (hrun : ∀ k < N, elapsed k < duration) (hstop : duration ≤ elapsed N)
    (hfuel : N < fuel) :
    (load.run_mixed_load mixedFibArg elapsed duration fuel 0).2 = N
    ∧ (load.run_mixed_load mixedFibArg elapsed duration fuel 0).1.length
        = (load.run_mixed_load mixedFibArg elapsed duration fuel 0).2
    ∧ (∀ k, k < N → (load.run_mixed_load mixedFibArg elapsed duration fuel 0).1[k]?
        = some (load.mixedIterCalls mixedFibArg k))
    ∧ (∀ k, (load.mixedIterCalls mixedFibArg k).count Call.health = 1
        ∧ (Call.listUsersCall 0 20 ∈ load.mixedIterCalls mixedFibArg k ↔ k % 3 = 0)
        ∧ (Call.fib (mixedFibArg k) ∈ load.mixedIterCalls mixedFibArg k ↔ k % 5 = 0))
    ∧ (∀ k, ∃ i j : Nat, i < j
        ∧ (load.mixedIterEvents outcome mixedFibArg k)[i]? = some Event.join
        ∧ (load.mixedIterEvents outcome mixedFibArg k)[j]? = some Event.sleep) := by
  have heq := run_mixed_load_eq mixedFibArg elapsed duration N hrun hstop fuel 0
    (Nat.zero_le N) (by omega)
  rw [Nat.sub_zero] at heq
  refine ⟨by rw [heq], by rw [heq]; simp, ?_, ?_, ?_⟩
  · intro k hk
    rw [heq]
    simp only [List.getElem?_map]
    rw [show (0 : Nat) = 0 from rfl]
    rw [← List.range_eq_range', List.getElem?_range hk]
    rfl
  · intro k
    by_cases h3 : k % 3 = 0 <;> by_cases h5 : k % 5 = 0 <;>
      simp [load.mixedIterCalls, h3, h5, List.count_append, List.count_cons]
  · intro k
    by_cases h3 : k % 3 = 0 <;> by_cases h5 : k % 5 = 0
    · refine ⟨6, 7, by omega, ?_, ?_⟩ <;>
        simp [load.mixedIterEvents, load.runPhase, load.mixedIterCalls, h3, h5]
    · refine ⟨4, 5, by omega, ?_, ?_⟩ <;>
        simp [load.mixedIterEvents, load.runPhase, load.mixedIterCalls, h3, h5]
    · refine ⟨4, 5, by omega, ?_, ?_⟩ <;>
        simp [load.mixedIterEvents, load.runPhase, load.mixedIterCalls, h3, h5]
    · refine ⟨2, 3, by omega, ?_, ?_⟩ <;>
        simp [load.mixedIterEvents, load.runPhase, load.mixedIterCalls, h3, h5]

/-- C8 witness: with elapsed time k at iteration k and duration 3, the
loop performs exactly 3 iterations and reports 3, and iteration 3 would
carry a list call since 3 is a multiple of 3. -/
theorem run_mixed_load_spec_witness :
    (load.run_mixed_load (fun _ => 25) (fun k => k) 3 4 0).2 = 3
    ∧ (Call.listUsersCall 0 20 ∈ load.mixedIterCalls (fun _ => 25) 3 ↔ 3 % 3 = 0) := by
  have h := run_mixed_load_spec (fun _ => 25) (fun _ => true) (fun k => k) 3 3 4
    (fun k hk => hk) (Nat.le_refl 3) (by omega)
  exact ⟨h.1, (h.2.2.2.1 3).2.1⟩
